import Mathlib

/-! Verification development for the rig-parameter synthesis core of the
live2d-ai-generator repository: the animation-curve generators of
`src/modules/parameters_gen.py` and the mask-selection / layer-ordering
logic of `src/modules/layer_separator.py`.  Curves whose arithmetic is
exact decimal arithmetic are embedded over `ℚ`; the trigonometric curves
are embedded over `ℝ`.  Python's module-level random draws are made
explicit as a stream `u : ℕ → ℚ` of unit draws consumed in order. -/

namespace Live2D

/-- A single animation keyframe: a sample time (seconds) and a parameter
value, mirroring the `{"time": t, "value": v}` dictionaries built
throughout `parameters_gen.py`.  The scalar type is a parameter so that
the exactly-rational curves use `ℚ` while the trigonometric ones use `ℝ`. -/
structure Keyframe (α : Type) where
  time : α
  value : α
  deriving DecidableEq, Repr

/-- Model of Python `random.uniform a b`: an ambient unit draw `x`
(intended to lie in `[0,1]`) mapped affinely onto `[a, b]`. -/
def uniform (a b x : ℚ) : ℚ := a + (b - a) * x

/-- One full blink cycle of `_create_eye_blink_curve`
(`src/modules/parameters_gen.py`, lines 149-189), starting at time `t0`:
the twelve keyframes appended by one iteration of the while-loop body,
paired with the time reached at the end of the cycle (before the
inter-blink wait is added).  The sub-step increments are the fixed
literals `0.02` and `0.06` of the source; the local
`blink_duration = 0.3 / speed` computed at line 137 of the source is
never read afterwards, so the cycle shape does not depend on `speed`. -/
def blinkCycle (t0 : ℚ) : List (Keyframe ℚ) × ℚ :=
  let t1 := t0 + 0.02
  let t2 := t1 + 0.02
  let t3 := t2 + 0.02
  let t4 := t3 + 0.02
  let t5 := t4 + 0.02
  let t6 := t5 + 0.06
  let t7 := t6 + 0.02
  let t8 := t7 + 0.02
  let t9 := t8 + 0.02
  let t10 := t9 + 0.02
  let t11 := t10 + 0.02
  ([⟨t0, 1.0⟩, ⟨t1, 0.9⟩, ⟨t2, 0.7⟩, ⟨t3, 0.5⟩, ⟨t4, 0.2⟩, ⟨t5, 0.0⟩,
    ⟨t6, 0.0⟩, ⟨t7, 0.2⟩, ⟨t8, 0.5⟩, ⟨t9, 0.7⟩, ⟨t10, 0.9⟩, ⟨t11, 1.0⟩], t11)

/-- The while-loop of `_create_eye_blink_curve` (lines 148-197 of
`src/modules/parameters_gen.py`).  `u` is the stream of unit draws of the
module-level `random` source, `idx` the position of the next unread draw,
`t` the running `current_time`, and the horizon `total_time = 10.0` is the
source's fixed literal.  `fuel` bounds the number of iterations; every
iteration advances `t` by at least `0.26` plus the wait, so for unit
draws in `[0,1]` (wait at least `1.4` seconds) the fuel of `64` supplied
by `createEyeBlinkCurve` is never exhausted. -/
def blinkLoop (u : ℕ → ℚ) (randomBlink : Bool) (interval : ℚ) :
    ℕ → ℕ → ℚ → List (Keyframe ℚ)
  | 0, _, _ => []
  | fuel + 1, idx, t =>
    if t < 10.0 then
      let c := blinkCycle t
      let w : ℚ × ℕ :=
        if randomBlink then (uniform (interval * 0.7) (interval * 1.3) (u idx), idx + 1)
        else (interval, idx)
      c.1 ++ blinkLoop u randomBlink interval fuel w.2 (c.2 + w.1)
    else []

/-- Embedding of `_create_eye_blink_curve(speed, random_blink)`
(`src/modules/parameters_gen.py`, lines 123-199).  With
`randomBlink = false` the interval between blinks is the fixed `4.0`
seconds; with `randomBlink = true` the interval is drawn uniformly from
`[2.0, 6.0]` (consuming draw `0`) and each wait uniformly from
`[interval * 0.7, interval * 1.3]`.  The computed `blink_duration` is kept
to mirror line 137 of the source, which never uses it. -/
def createEyeBlinkCurve (speed : ℚ) (randomBlink : Bool) (u : ℕ → ℚ) :
    List (Keyframe ℚ) :=
  let _blink_duration := 0.3 / speed
  let iv : ℚ × ℕ := if randomBlink then (uniform 2.0 6.0 (u 0), 1) else (4.0, 0)
  blinkLoop u randomBlink iv.1 64 iv.2 0.0

/-- Embedding of `_create_sample_lip_sync` (`src/modules/parameters_gen.py`,
lines 226-257): ten syllables spread evenly over `5.0` seconds, each
emitting four keyframes; the mouth-open value of syllable `i` is
`random.uniform(0.3, 0.7)`, modelled by the unit draw `u i`. -/
def createSampleLipSync (u : ℕ → ℚ) : List (Keyframe ℚ) :=
  let total_time : ℚ := 5.0
  let syllable_count : ℕ := 10
  ((List.range syllable_count).map (fun (i : ℕ) =>
    let start_time : ℚ := (i : ℚ) * (total_time / (syllable_count : ℚ))
    let max_open := uniform 0.3 0.7 (u i)
    [⟨start_time, 0.0⟩, ⟨start_time + 0.1, max_open⟩,
     ⟨start_time + 0.2, 0.2⟩, ⟨start_time + 0.3, 0.0⟩])).flatten

/-- The three head-rotation axes of `_generate_head_rotation_params`. -/
inductive Axis : Type
  | x
  | y
  | z
  deriving DecidableEq, Repr

/-- Per-axis frequency of `_create_head_rotation_curve`
(`src/modules/parameters_gen.py`, lines 305-316). -/
def headFrequency : Axis → ℚ
  | .x => 0.2
  | .y => 0.15
  | .z => 0.1

/-- Per-axis phase offset of `_create_head_rotation_curve`
(`src/modules/parameters_gen.py`, lines 305-316): the source literals
`0.0`, `1.57` and `3.14` radians. -/
def headPhase : Axis → ℚ
  | .x => 0.0
  | .y => 1.57
  | .z => 3.14

/-- Embedding of `_create_head_rotation_curve(axis, range_values)`
(`src/modules/parameters_gen.py`, lines 289-331): one keyframe every
`0.1` seconds over the `10.0`-second horizon, with value
`mid + amplitude * sin(2 * pi * frequency * t + phase)` where `mid` and
`amplitude` come from the configured `[min, max]` range of the axis. -/
noncomputable def createHeadRotationCurve (axis : Axis) (range_values : ℚ × ℚ) :
    List (Keyframe ℝ) :=
  let total_time : ℚ := 10.0
  let frequency := headFrequency axis
  let phase := headPhase axis
  let mid_val := (range_values.1 + range_values.2) / 2
  let amplitude := (range_values.2 - range_values.1) / 2
  let step : ℚ := 0.1
  (List.range ((total_time / step).floor.toNat + 1)).map (fun (t : ℕ) =>
    let time_point : ℚ := (t : ℚ) * step
    ⟨(time_point : ℝ),
     (mid_val : ℝ) + (amplitude : ℝ) *
       Real.sin (2 * Real.pi * (frequency : ℝ) * (time_point : ℝ) + (phase : ℝ))⟩)

/-- Embedding of `_create_breathing_curve(depth, speed)`
(`src/modules/parameters_gen.py`, lines 353-379): one keyframe every
`0.1` seconds over the `10.0`-second horizon, with value
`0.5 + depth * 0.5 * sin(2 * pi * (0.25 * speed) * t)`. -/
noncomputable def createBreathingCurve (depth speed : ℚ) : List (Keyframe ℝ) :=
  let total_time : ℚ := 10.0
  let frequency : ℚ := 0.25 * speed
  let step : ℚ := 0.1
  (List.range ((total_time / step).floor.toNat + 1)).map (fun (t : ℕ) =>
    let time_point : ℚ := (t : ℚ) * step
    ⟨(time_point : ℝ),
     0.5 + (depth : ℝ) * 0.5 *
       Real.sin (2 * Real.pi * (frequency : ℝ) * (time_point : ℝ))⟩)

/-- A 2D boolean segmentation mask of height `h` and width `w`, as produced
by the segmentation step of `src/modules/layer_separator.py` (a NumPy
boolean array). -/
abbrev Mask (h w : ℕ) := Fin h → Fin w → Bool

/-- The True-pixel count of a mask: Python `m.sum()` for a boolean array,
used as the sort key at line 297 of `src/modules/layer_separator.py`. -/
def maskArea {h w : ℕ} (m : Mask h w) : ℕ :=
  (Finset.univ.filter (fun p : Fin h × Fin w => m p.1 p.2)).card

/-- An RGB source pixel. -/
abbrev Pixel := ℕ × ℕ × ℕ

/-- An RGBA output pixel `(r, g, b, a)`. -/
abbrev PixelA := ℕ × ℕ × ℕ × ℕ

/-- An RGB image of height `h` and width `w`. -/
abbrev Image (h w : ℕ) := Fin h → Fin w → Pixel

/-- An RGBA image of height `h` and width `w`. -/
abbrev ImageA (h w : ℕ) := Fin h → Fin w → PixelA

/-- The `part_hierarchy` table of `src/modules/layer_separator.py`,
lines 48-72: part name to z-order rank. -/
def part_hierarchy : List (String × ℕ) :=
  [("background", 0),
   ("hair_back", 1),
   ("body", 2),
   ("arm_left", 3),
   ("arm_right", 3),
   ("leg_left", 3),
   ("leg_right", 3),
   ("face", 4),
   ("eye_white_left", 5),
   ("eye_white_right", 5),
   ("iris_left", 6),
   ("iris_right", 6),
   ("highlight_left", 7),
   ("highlight_right", 7),
   ("eyebrows_left", 8),
   ("eyebrows_right", 8),
   ("nose", 9),
   ("mouth", 10),
   ("upper_lip", 11),
   ("lower_lip", 11),
   ("hair_side", 12),
   ("hair_front", 13),
   ("accessories", 14)]

/-- Python `self.part_hierarchy.get(p, 999)`: the configured rank of a part
name, or the sentinel `999` when the name is absent from the table
(line 338 of `src/modules/layer_separator.py`). -/
def rankOf (p : String) : ℕ := (part_hierarchy.lookup p).getD 999

/-- The key order used by `sorted(layers.keys(), key=...)` in `_create_psd`. -/
def rankLe (p q : String) : Prop := rankOf p ≤ rankOf q

instance : DecidableRel rankLe := fun p q =>
  inferInstanceAs (Decidable (rankOf p ≤ rankOf q))

instance : IsTotal String rankLe := ⟨fun p q => Nat.le_total (rankOf p) (rankOf q)⟩

instance : IsTrans String rankLe := ⟨fun _ _ _ => Nat.le_trans⟩

/-- The layer order computed by `_create_psd`
(`src/modules/layer_separator.py`, line 338):
`sorted(layers.keys(), key=lambda p: self.part_hierarchy.get(p, 999))`.
Python's `sorted` is a stable sort by the key; it is modelled by the
stable insertion sort under the key order `rankLe`. -/
def orderedParts (parts : List String) : List String :=
  parts.insertionSort rankLe

/-- Descending area order on masks, the key order of
`sorted(masks, key=lambda m: m.sum(), reverse=True)` at line 297 of
`src/modules/layer_separator.py`. -/
def areaGe {h w : ℕ} (m m' : Mask h w) : Prop := maskArea m' ≤ maskArea m

instance {h w : ℕ} : DecidableRel (areaGe (h := h) (w := w)) := fun m m' =>
  inferInstanceAs (Decidable (maskArea m' ≤ maskArea m))

instance {h w : ℕ} : IsTotal (Mask h w) areaGe :=
  ⟨fun m m' => (Nat.le_total (maskArea m') (maskArea m))⟩

instance {h w : ℕ} : IsTrans (Mask h w) areaGe :=
  ⟨fun _ _ _ h1 h2 => Nat.le_trans h2 h1⟩

/-- The mask chosen by `_segment_part` when at least one candidate mask
exists (`src/modules/layer_separator.py`, lines 295-298): the candidates
are stably sorted by True-pixel area in descending order and the first is
taken.  Python's `sorted(..., reverse=True)` is stable, modelled by the
stable insertion sort under `areaGe`. -/
def selectMask {h w : ℕ} (masks : List (Mask h w)) : Option (Mask h w) :=
  (masks.insertionSort areaGe).head?

/-- Application of the selected mask to the source image
(`src/modules/layer_separator.py`, lines 301-303): the result starts as
all-zero RGBA; where the mask is True the RGB channels are copied and the
alpha channel is set to `255`. -/
def applyMask {h w : ℕ} (img : Image h w) (m : Mask h w) : ImageA h w :=
  fun i j =>
    if m i j then ((img i j).1, (img i j).2.1, (img i j).2.2, 255)
    else (0, 0, 0, 0)

/-- Embedding of the tail of `_segment_part`
(`src/modules/layer_separator.py`, lines 294-318), starting from the list
of candidate masks produced by the segmentation step: with no candidate
the part yields `none` (Python `None`); otherwise the largest-area
candidate is applied to the image.  When `refine` is set the source
additionally smooths the alpha channel with an external Gaussian blur
(`cv2.GaussianBlur`); that external filter is abstracted as the function
argument `blur`. -/
def segmentPart {h w : ℕ} (refine : Bool) (blur : ImageA h w → ImageA h w)
    (img : Image h w) (masks : List (Mask h w)) : Option (ImageA h w) :=
  match selectMask masks with
  | none => none
  | some m =>
    let result := applyMask img m
    some (if refine then blur result else result)

/-- Embedding of the per-part loop of `separate`
(`src/modules/layer_separator.py`, lines 379-386): each requested part is
segmented, and exactly the parts whose segmentation returned a
non-`None` image are kept (in request order) in the `layers` mapping. -/
def separateLayers {h w : ℕ} (refine : Bool) (blur : ImageA h w → ImageA h w)
    (img : Image h w) (parts : List (String × List (Mask h w))) :
    List (String × ImageA h w) :=
  parts.filterMap (fun pr =>
    (segmentPart refine blur img pr.2).map (fun im => (pr.1, im)))

/-! Helper lemmas about the blink synthesizer. -/

/-- A blink cycle always emits exactly twelve keyframes. -/
theorem blinkCycle_length (t0 : ℚ) : (blinkCycle t0).1.length = 12 := rfl

/-- A blink cycle ends `0.26` seconds after it starts. -/
theorem blinkCycle_snd (t0 : ℚ) : (blinkCycle t0).2 = t0 + 0.26 := by
  simp only [blinkCycle]
  norm_num [add_assoc]

/-- Unfolding of one non-random loop iteration below the horizon. -/
theorem blinkLoop_false_step (u : ℕ → ℚ) (iv t : ℚ) (fuel idx : ℕ)
    (ht : t < 10.0) :
    blinkLoop u false iv (fuel + 1) idx t =
      (blinkCycle t).1 ++ blinkLoop u false iv fuel idx ((blinkCycle t).2 + iv) := by
  rw [blinkLoop, if_pos ht]
  rfl

/-- Unfolding of one randomized loop iteration below the horizon. -/
theorem blinkLoop_true_step (u : ℕ → ℚ) (iv t : ℚ) (fuel idx : ℕ)
    (ht : t < 10.0) :
    blinkLoop u true iv (fuel + 1) idx t =
      (blinkCycle t).1 ++ blinkLoop u true iv fuel (idx + 1)
        ((blinkCycle t).2 + uniform (iv * 0.7) (iv * 1.3) (u idx)) := by
  rw [blinkLoop, if_pos ht]
  rfl

/-- The loop stops once the running time reaches the horizon. -/
theorem blinkLoop_stop (u : ℕ → ℚ) (rb : Bool) (iv t : ℚ) (fuel idx : ℕ)
    (ht : ¬t < 10.0) :
    blinkLoop u rb iv (fuel + 1) idx t = [] := by
  rw [blinkLoop, if_neg ht]

/-- With `random_blink = false` the curve is three cycles starting at
`0`, `4.26` and `8.52` seconds, for every speed and every draw stream:
the speed is only used to compute the unused `blink_duration`, and the
draws are never read. -/
theorem blink_false_eq (speed : ℚ) (u : ℕ → ℚ) :
    createEyeBlinkCurve speed false u =
      (blinkCycle 0).1 ++ ((blinkCycle 4.26).1 ++ (blinkCycle 8.52).1) := by
  show blinkLoop u false 4.0 (63 + 1) 0 0.0 = _
  rw [blinkLoop_false_step u 4.0 0.0 63 0 (by norm_num), blinkCycle_snd,
    show (0.0 : ℚ) + 0.26 + 4.0 = 4.26 by norm_num,
    show (63 : ℕ) = 62 + 1 from rfl,
    blinkLoop_false_step u 4.0 4.26 62 0 (by norm_num), blinkCycle_snd,
    show (4.26 : ℚ) + 0.26 + 4.0 = 8.52 by norm_num,
    show (62 : ℕ) = 61 + 1 from rfl,
    blinkLoop_false_step u 4.0 8.52 61 0 (by norm_num), blinkCycle_snd,
    show (8.52 : ℚ) + 0.26 + 4.0 = 12.78 by norm_num,
    show (61 : ℕ) = 60 + 1 from rfl,
    blinkLoop_stop u false 4.0 12.78 60 0 (by norm_num)]
  norm_num

/-- Evaluation of the randomized curve on the constant-zero draw stream:
interval `2.0` seconds, every wait `1.4` seconds, hence seven cycles, the
last starting at `9.96` seconds and ending at `10.22` seconds. -/
theorem blink_rand_zero_eq :
    createEyeBlinkCurve 1 true (fun _ => 0) =
      (blinkCycle 0).1 ++ ((blinkCycle 1.66).1 ++ ((blinkCycle 3.32).1 ++
        ((blinkCycle 4.98).1 ++ ((blinkCycle 6.64).1 ++ ((blinkCycle 8.3).1 ++
          (blinkCycle 9.96).1))))) := by
  show blinkLoop (fun _ => 0) true (uniform 2.0 6.0 0) (63 + 1) 1 0.0 = _
  rw [show uniform 2.0 6.0 (0 : ℚ) = 2 by norm_num [uniform]]
  rw [blinkLoop_true_step _ 2 0.0 63 1 (by norm_num), blinkCycle_snd,
    show (0.0 : ℚ) + 0.26 + uniform (2 * 0.7) (2 * 1.3) 0 = 1.66 by norm_num [uniform],
    show (63 : ℕ) = 62 + 1 from rfl,
    blinkLoop_true_step _ 2 1.66 62 2 (by norm_num), blinkCycle_snd,
    show (1.66 : ℚ) + 0.26 + uniform (2 * 0.7) (2 * 1.3) 0 = 3.32 by norm_num [uniform],
    show (62 : ℕ) = 61 + 1 from rfl,
    blinkLoop_true_step _ 2 3.32 61 3 (by norm_num), blinkCycle_snd,
    show (3.32 : ℚ) + 0.26 + uniform (2 * 0.7) (2 * 1.3) 0 = 4.98 by norm_num [uniform],
    show (61 : ℕ) = 60 + 1 from rfl,
    blinkLoop_true_step _ 2 4.98 60 4 (by norm_num), blinkCycle_snd,
    show (4.98 : ℚ) + 0.26 + uniform (2 * 0.7) (2 * 1.3) 0 = 6.64 by norm_num [uniform],
    show (60 : ℕ) = 59 + 1 from rfl,
    blinkLoop_true_step _ 2 6.64 59 5 (by norm_num), blinkCycle_snd,
    show (6.64 : ℚ) + 0.26 + uniform (2 * 0.7) (2 * 1.3) 0 = 8.3 by norm_num [uniform],
    show (59 : ℕ) = 58 + 1 from rfl,
    blinkLoop_true_step _ 2 8.3 58 6 (by norm_num), blinkCycle_snd,
    show (8.3 : ℚ) + 0.26 + uniform (2 * 0.7) (2 * 1.3) 0 = 9.96 by norm_num [uniform],
    show (58 : ℕ) = 57 + 1 from rfl,
    blinkLoop_true_step _ 2 9.96 57 7 (by norm_num), blinkCycle_snd,
    show (9.96 : ℚ) + 0.26 + uniform (2 * 0.7) (2 * 1.3) 0 = 11.62 by norm_num [uniform],
    show (57 : ℕ) = 56 + 1 from rfl,
    blinkLoop_stop _ true 2 11.62 56 8 (by norm_num)]
  norm_num

/-- Evaluation of the randomized curve on the constant-one draw stream:
interval `6.0` seconds, every wait `7.8` seconds, hence only two cycles. -/
theorem blink_rand_one_eq :
    createEyeBlinkCurve 1 true (fun _ => 1) =
      (blinkCycle 0).1 ++ (blinkCycle 8.06).1 := by
  show blinkLoop (fun _ => 1) true (uniform 2.0 6.0 1) (63 + 1) 1 0.0 = _
  rw [show uniform 2.0 6.0 (1 : ℚ) = 6 by norm_num [uniform]]
  rw [blinkLoop_true_step _ 6 0.0 63 1 (by norm_num), blinkCycle_snd,
    show (0.0 : ℚ) + 0.26 + uniform (6 * 0.7) (6 * 1.3) 1 = 8.06 by norm_num [uniform],
    show (63 : ℕ) = 62 + 1 from rfl,
    blinkLoop_true_step _ 6 8.06 62 2 (by norm_num), blinkCycle_snd,
    show (8.06 : ℚ) + 0.26 + uniform (6 * 0.7) (6 * 1.3) 1 = 16.12 by norm_num [uniform],
    show (62 : ℕ) = 61 + 1 from rfl,
    blinkLoop_stop _ true 6 16.12 61 3 (by norm_num)]
  norm_num

/-- Every keyframe of the blink loop lies in some cycle. -/
theorem blinkLoop_mem {u : ℕ → ℚ} {rb : Bool} {iv : ℚ} :
    ∀ {fuel idx : ℕ} {t : ℚ} {kf : Keyframe ℚ},
      kf ∈ blinkLoop u rb iv fuel idx t → ∃ t0, kf ∈ (blinkCycle t0).1
  | 0, _, _, _, hmem => by simp [blinkLoop] at hmem
  | fuel + 1, idx, t, kf, hmem => by
    rw [blinkLoop] at hmem
    by_cases ht : t < 10.0
    · rw [if_pos ht, List.mem_append] at hmem
      rcases hmem with hmem | hmem
      · exact ⟨t, hmem⟩
      · exact blinkLoop_mem hmem
    · rw [if_neg ht] at hmem
      simp at hmem

/-- Every value appearing in a blink cycle lies in `[0, 1]`. -/
theorem blinkCycle_value_mem {t0 : ℚ} {kf : Keyframe ℚ}
    (hmem : kf ∈ (blinkCycle t0).1) : 0 ≤ kf.value ∧ kf.value ≤ 1 := by
  simp [blinkCycle] at hmem
  rcases hmem with h | h | h | h | h | h | h | h | h | h | h | h <;>
    rw [h] <;> norm_num

/-! Claim theorems for the blink synthesizer. -/

/-- C2.  With `random_blink = false` and any speed, every full blink cycle
has the keyframe value sequence exactly
`1.0, 0.9, 0.7, 0.5, 0.2, 0.0, 0.0, 0.2, 0.5, 0.7, 0.9, 1.0`; each cycle
starts and ends at value `1.0` and holds `0.0` at the two midpoint
keyframes. -/
theorem blink_cycle_value_sequence (speed : ℚ) (u : ℕ → ℚ) :
    (createEyeBlinkCurve speed false u).map Keyframe.value =
      [1, 0.9, 0.7, 0.5, 0.2, 0, 0, 0.2, 0.5, 0.7, 0.9, 1] ++
      ([1, 0.9, 0.7, 0.5, 0.2, 0, 0, 0.2, 0.5, 0.7, 0.9, 1] ++
       [1, 0.9, 0.7, 0.5, 0.2, 0, 0, 0.2, 0.5, 0.7, 0.9, 1]) ∧
    ∀ t0 : ℚ,
      (blinkCycle t0).1.map Keyframe.value =
        [1, 0.9, 0.7, 0.5, 0.2, 0, 0, 0.2, 0.5, 0.7, 0.9, 1] ∧
      ((blinkCycle t0).1.map Keyframe.value).head? = some 1 ∧
      ((blinkCycle t0).1.map Keyframe.value).getLast? = some 1 ∧
      ((blinkCycle t0).1.map Keyframe.value)[5]? = some 0 ∧
      ((blinkCycle t0).1.map Keyframe.value)[6]? = some 0 := by
  have hv : ∀ t0 : ℚ, (blinkCycle t0).1.map Keyframe.value =
      [1, 0.9, 0.7, 0.5, 0.2, 0, 0, 0.2, 0.5, 0.7, 0.9, 1] := by
    intro t0
    norm_num [blinkCycle]
  constructor
  · rw [blink_false_eq, List.map_append, List.map_append, hv, hv, hv]
  · intro t0
    refine ⟨hv t0, ?_, ?_, ?_, ?_⟩ <;> rw [hv t0] <;> rfl

/-- C3, counterexample.  At `speed = 1` the first full blink cycle of the
synthesized curve spans exactly `0.26` seconds, which is not within one
`0.02`-second sampling step of the specified `0.3 / speed` seconds. -/
theorem blink_cycle_duration_not_speed_scaled :
    (createEyeBlinkCurve 1 false (fun _ => 0)).take 12 = (blinkCycle 0).1 ∧
    ((blinkCycle 0).1.map Keyframe.time).head? = some 0 ∧
    ((blinkCycle 0).1.map Keyframe.time).getLast? = some 0.26 ∧
    ¬(0.3 / 1 - 0.02 ≤ (0.26 : ℚ) - 0 ∧ (0.26 : ℚ) - 0 ≤ 0.3 / 1 + 0.02) := by
  have ht : (blinkCycle (0 : ℚ)).1.map Keyframe.time =
      [0, 0.02, 0.04, 0.06, 0.08, 0.1, 0.16, 0.18, 0.2, 0.22, 0.24, 0.26] := by
    norm_num [blinkCycle, add_assoc]
  refine ⟨?_, ?_, ?_, ?_⟩
  · rw [blink_false_eq,
      show (12 : ℕ) = (blinkCycle (0 : ℚ)).1.length from rfl,
      List.take_left]
  · rw [ht]; rfl
  · rw [ht]; rfl
  · norm_num

/-- C3, amended.  Closing and opening each consist of five equal
`0.02`-second sub-steps ramping the value between `1.0` and `0.0`, the
CLOSED state holds value `0.0` for a fixed `0.06`-second dwell, and the
full closing-to-opening cycle lasts exactly `0.26` seconds for every
speed (the computed `0.3 / speed` duration is never used). -/
theorem blink_cycle_shape (speed : ℚ) (u : ℕ → ℚ) (t0 : ℚ) :
    (createEyeBlinkCurve speed false u).take 12 = (blinkCycle 0).1 ∧
    (blinkCycle t0).1.map Keyframe.time =
      [t0, t0 + 0.02, t0 + 0.04, t0 + 0.06, t0 + 0.08, t0 + 0.1,
       t0 + 0.16, t0 + 0.18, t0 + 0.2, t0 + 0.22, t0 + 0.24, t0 + 0.26] ∧
    (blinkCycle t0).1.map Keyframe.value =
      [1, 0.9, 0.7, 0.5, 0.2, 0, 0, 0.2, 0.5, 0.7, 0.9, 1] ∧
    (blinkCycle t0).2 = t0 + 0.26 := by
  refine ⟨?_, ?_, ?_, blinkCycle_snd t0⟩
  · rw [blink_false_eq,
      show (12 : ℕ) = (blinkCycle (0 : ℚ)).1.length from rfl,
      List.take_left]
  · norm_num [blinkCycle, add_assoc]
  · norm_num [blinkCycle]

/-- The times of a blink cycle starting at `t0`. -/
theorem blinkCycle_time_map (t0 : ℚ) :
    (blinkCycle t0).1.map Keyframe.time =
      [t0, t0 + 0.02, t0 + 0.04, t0 + 0.06, t0 + 0.08, t0 + 0.1,
       t0 + 0.16, t0 + 0.18, t0 + 0.2, t0 + 0.22, t0 + 0.24, t0 + 0.26] := by
  norm_num [blinkCycle, add_assoc]

/-- Every keyframe of a blink cycle lies within the cycle's time span. -/
theorem blinkCycle_time_le {t0 : ℚ} {kf : Keyframe ℚ}
    (hmem : kf ∈ (blinkCycle t0).1) : kf.time ≤ t0 + 0.26 := by
  have hm : kf.time ∈ (blinkCycle t0).1.map Keyframe.time :=
    List.mem_map_of_mem _ hmem
  rw [blinkCycle_time_map] at hm
  simp at hm
  rcases hm with h | h | h | h | h | h | h | h | h | h | h | h <;>
    rw [h] <;> linarith

/-- C4, counterexample.  With `blink_speed = 1.0` and
`random_blink = false` the synthesized curve consists of exactly three
full cycles (36 keyframes), not two; and with `random_blink = true` the
loop performs no truncation at the `10.0`-second horizon: on the
constant-zero draw stream a cycle starting at `9.96` seconds emits
keyframes up to `10.22` seconds, beyond the horizon. -/
theorem blink_three_cycles_not_two :
    createEyeBlinkCurve 1 false (fun _ => 0) =
      (blinkCycle 0).1 ++ ((blinkCycle 4.26).1 ++ (blinkCycle 8.52).1) ∧
    (createEyeBlinkCurve 1 false (fun _ => 0)).length = 36 ∧
    (¬∃ a b : ℚ, createEyeBlinkCurve 1 false (fun _ => 0) =
      (blinkCycle a).1 ++ (blinkCycle b).1) ∧
    (∃ kf ∈ createEyeBlinkCurve 1 true (fun _ => 0), 10 < kf.time) := by
  refine ⟨blink_false_eq 1 _, ?_, ?_, ?_⟩
  · rw [blink_false_eq]
    simp [blinkCycle_length]
  · rintro ⟨a, b, hab⟩
    have hl := congrArg List.length hab
    rw [blink_false_eq] at hl
    simp only [List.length_append, blinkCycle_length] at hl
    omega
  · have h996 : (10.22 : ℚ) ∈ (blinkCycle (9.96 : ℚ)).1.map Keyframe.time := by
      rw [blinkCycle_time_map]
      norm_num
    obtain ⟨kf, hmem, htime⟩ := List.mem_map.mp h996
    refine ⟨kf, ?_, by rw [htime]; norm_num⟩
    rw [blink_rand_zero_eq]
    simp only [List.mem_append]
    exact Or.inr (Or.inr (Or.inr (Or.inr (Or.inr (Or.inr hmem)))))

/-- C4, amended.  The loop starts a new cycle whenever the running time is
still below the `10.0`-second horizon and performs no truncation of the
emitted keyframes.  With `random_blink = false` (any speed) this yields
exactly three full cycles starting at `0`, `4.26` and `8.52` seconds,
each followed by the fixed `4.0`-second gap, and every keyframe time of
this deterministic curve stays at or below the horizon (the last one at
`8.78` seconds). -/
theorem blink_horizon_cycles (speed : ℚ) (u : ℕ → ℚ) :
    createEyeBlinkCurve speed false u =
      (blinkCycle 0).1 ++ ((blinkCycle 4.26).1 ++ (blinkCycle 8.52).1) ∧
    (blinkCycle 0).2 + 4.0 = 4.26 ∧
    (blinkCycle 4.26).2 + 4.0 = 8.52 ∧
    (∀ kf ∈ createEyeBlinkCurve speed false u, kf.time ≤ 10) := by
  refine ⟨blink_false_eq speed u, ?_, ?_, ?_⟩
  · rw [blinkCycle_snd]; norm_num
  · rw [blinkCycle_snd]; norm_num
  · intro kf hkf
    rw [blink_false_eq] at hkf
    simp only [List.mem_append] at hkf
    rcases hkf with h | h | h
    · have := blinkCycle_time_le h; linarith
    · have := blinkCycle_time_le h; linarith
    · have := blinkCycle_time_le h; linarith

/-- Witness for `blink_horizon_cycles`: the first keyframe of the
deterministic curve is within the horizon. -/
theorem blink_horizon_cycles_witness : (⟨0, 1.0⟩ : Keyframe ℚ).time ≤ 10 := by
  have h := blink_horizon_cycles 1 (fun _ => 0)
  refine h.2.2.2 ⟨0, 1.0⟩ ?_
  rw [h.1]
  simp [blinkCycle]

/-- C8, amended.  With `random_blink = false` the synthesized curve does
not depend on the ambient random draw stream at all: two invocations with
the same speed (and the fixed `10.0`-second horizon) yield identical
keyframe sequences. -/
theorem blink_deterministic_reproducible (speed : ℚ) (u v : ℕ → ℚ) :
    createEyeBlinkCurve speed false u = createEyeBlinkCurve speed false v := by
  rw [blink_false_eq, blink_false_eq]

/-- C8, counterexample.  With `random_blink = true` the output is not a
function of the invocation's arguments: `_create_eye_blink_curve` takes
no seed parameter, its draws come from the module-level `random` source,
and two invocations that are identical except for the ambient draw stream
produce different keyframe sequences (84 versus 24 keyframes). -/
theorem blink_random_not_seed_determined :
    createEyeBlinkCurve 1 true (fun _ => 0) ≠ createEyeBlinkCurve 1 true (fun _ => 1) := by
  intro h
  have hl := congrArg List.length h
  rw [blink_rand_zero_eq, blink_rand_one_eq] at hl
  simp only [List.length_append, blinkCycle_length] at hl
  omega

/-! Lip-sync synthesizer lemmas. -/

/-- Explicit expansion of the lip-sync curve: forty keyframes, four per
syllable, with syllable `i` starting at `i * 0.5` seconds. -/
theorem lipSync_eq (u : ℕ → ℚ) :
    createSampleLipSync u =
      [⟨0, 0⟩, ⟨0.1, uniform 0.3 0.7 (u 0)⟩, ⟨0.2, 0.2⟩, ⟨0.3, 0⟩,
       ⟨0.5, 0⟩, ⟨0.6, uniform 0.3 0.7 (u 1)⟩, ⟨0.7, 0.2⟩, ⟨0.8, 0⟩,
       ⟨1, 0⟩, ⟨1.1, uniform 0.3 0.7 (u 2)⟩, ⟨1.2, 0.2⟩, ⟨1.3, 0⟩,
       ⟨1.5, 0⟩, ⟨1.6, uniform 0.3 0.7 (u 3)⟩, ⟨1.7, 0.2⟩, ⟨1.8, 0⟩,
       ⟨2, 0⟩, ⟨2.1, uniform 0.3 0.7 (u 4)⟩, ⟨2.2, 0.2⟩, ⟨2.3, 0⟩,
       ⟨2.5, 0⟩, ⟨2.6, uniform 0.3 0.7 (u 5)⟩, ⟨2.7, 0.2⟩, ⟨2.8, 0⟩,
       ⟨3, 0⟩, ⟨3.1, uniform 0.3 0.7 (u 6)⟩, ⟨3.2, 0.2⟩, ⟨3.3, 0⟩,
       ⟨3.5, 0⟩, ⟨3.6, uniform 0.3 0.7 (u 7)⟩, ⟨3.7, 0.2⟩, ⟨3.8, 0⟩,
       ⟨4, 0⟩, ⟨4.1, uniform 0.3 0.7 (u 8)⟩, ⟨4.2, 0.2⟩, ⟨4.3, 0⟩,
       ⟨4.5, 0⟩, ⟨4.6, uniform 0.3 0.7 (u 9)⟩, ⟨4.7, 0.2⟩, ⟨4.8, 0⟩] := by
  simp only [createSampleLipSync]
  rw [show List.range 10 = [0, 1, 2, 3, 4, 5, 6, 7, 8, 9] from rfl]
  norm_num [List.flatten]

/-- The mouth-open value of a syllable lies in `[0.3, 0.7]` whenever the
unit draw lies in `[0, 1]`. -/
theorem uniform_mem {a b x : ℚ} (hab : a ≤ b) (h0 : 0 ≤ x) (h1 : x ≤ 1) :
    a ≤ uniform a b x ∧ uniform a b x ≤ b := by
  unfold uniform
  constructor <;> nlinarith

/-- C7.  The lip-sync curve distributes exactly ten syllables evenly over
`5.0` seconds (syllable `i` starts at `i * (5.0 / 10)` seconds), and each
syllable emits exactly four keyframes: `0.0` at the start, a value drawn
uniformly from `[0.3, 0.7]` at `start + 0.1`, `0.2` at `start + 0.2`, and
`0.0` at `start + 0.3`. -/
theorem lip_sync_shape (u : ℕ → ℚ) (hu : ∀ i, 0 ≤ u i ∧ u i ≤ 1) :
    (createSampleLipSync u).length = 40 ∧
    ∀ i : ℕ, i < 10 →
      ((createSampleLipSync u).drop (4 * i)).take 4 =
        [⟨(i : ℚ) * (5.0 / 10), 0⟩,
         ⟨(i : ℚ) * (5.0 / 10) + 0.1, uniform 0.3 0.7 (u i)⟩,
         ⟨(i : ℚ) * (5.0 / 10) + 0.2, 0.2⟩,
         ⟨(i : ℚ) * (5.0 / 10) + 0.3, 0⟩] ∧
      0.3 ≤ uniform 0.3 0.7 (u i) ∧ uniform 0.3 0.7 (u i) ≤ 0.7 := by
  constructor
  · rw [lipSync_eq]; rfl
  · intro i hi
    refine ⟨?_, uniform_mem (by norm_num) (hu i).1 (hu i).2⟩
    interval_cases i <;> rw [lipSync_eq] <;> norm_num

/-- Witness for `lip_sync_shape` at the constant draw stream `1/2`:
syllable `3` starts at `1.5` seconds and its mouth-open value is `0.5`. -/
theorem lip_sync_shape_witness :
    (createSampleLipSync (fun _ => 1/2)).length = 40 ∧
    ((createSampleLipSync (fun _ => 1/2)).drop (4 * 3)).take 4 =
      [⟨(3 : ℚ) * (5.0 / 10), 0⟩,
       ⟨(3 : ℚ) * (5.0 / 10) + 0.1, uniform 0.3 0.7 (1/2)⟩,
       ⟨(3 : ℚ) * (5.0 / 10) + 0.2, 0.2⟩,
       ⟨(3 : ℚ) * (5.0 / 10) + 0.3, 0⟩] ∧
    0.3 ≤ uniform 0.3 0.7 (1/2 : ℚ) ∧ uniform 0.3 0.7 (1/2 : ℚ) ≤ 0.7 := by
  have h := lip_sync_shape (fun _ => 1/2) (fun i => by norm_num)
  exact ⟨h.1, h.2 3 (by norm_num)⟩

/-! Head-rotation and breathing lemmas. -/

/-- The sampling grid of both periodic curves has 101 points:
`int(10.0 / 0.1) + 1`. -/
theorem periodic_step_count : ((10.0 : ℚ) / 0.1).floor.toNat + 1 = 101 := by
  rw [show (10.0 : ℚ) / 0.1 = 100 by norm_num, Rat.floor_def']
  norm_num
  rfl

/-- C6, counterexample.  The phase offsets of the Y and Z rotation axes
are the source literals `1.57` and `3.14` radians, which are not the
exact quadrature phases of 90 and 180 degrees: `1.57 ≠ π / 2` and
`3.14 ≠ π`. -/
theorem head_phase_not_exact_quadrature :
    ((headPhase Axis.y : ℚ) : ℝ) ≠ Real.pi / 2 ∧
    ((headPhase Axis.z : ℚ) : ℝ) ≠ Real.pi := by
  have hpi := Real.pi_gt_d6
  refine ⟨fun h => ?_, fun h => ?_⟩
  · rw [show headPhase Axis.y = (1.57 : ℚ) from rfl] at h
    norm_num at h
    linarith
  · rw [show headPhase Axis.z = (3.14 : ℚ) from rfl] at h
    norm_num at h
    linarith

/-- C6, amended.  For each axis with configured range `[mn, mx]` the
synthesized curve has a keyframe at every `t = 0.1 * k` for
`k = 0, …, 100` (horizon `10.0` seconds over a fixed `0.1`-second step),
with value exactly `mid + amplitude * sin(2π * frequency * t + phase)`
where `mid = (mn + mx) / 2` and `amplitude = (mx - mn) / 2`; the three
axes use distinct fixed frequencies (X fastest, Z slowest) with phase
offsets `0`, `1.57` and `3.14` radians (approximately, but not exactly,
90 and 180 degrees apart). -/
theorem head_rotation_dense_sampling (axis : Axis) (mn mx : ℚ) (k : ℕ)
    (hk : k ≤ 100) :
    (createHeadRotationCurve axis (mn, mx)).length = 101 ∧
    (createHeadRotationCurve axis (mn, mx))[k]? =
      some ⟨(((k : ℚ) * 0.1 : ℚ) : ℝ),
        (((mn + mx) / 2 : ℚ) : ℝ) + (((mx - mn) / 2 : ℚ) : ℝ) *
          Real.sin (2 * Real.pi * ((headFrequency axis : ℚ) : ℝ) *
              (((k : ℚ) * 0.1 : ℚ) : ℝ) + ((headPhase axis : ℚ) : ℝ))⟩ ∧
    headFrequency Axis.z < headFrequency Axis.y ∧
    headFrequency Axis.y < headFrequency Axis.x ∧
    headPhase Axis.x = 0 ∧ headPhase Axis.y = 1.57 ∧ headPhase Axis.z = 3.14 := by
  have hk101 : k < ((10.0 : ℚ) / 0.1).floor.toNat + 1 := by
    rw [periodic_step_count]; omega
  refine ⟨?_, ?_, ?_, ?_, by norm_num [headPhase], rfl, rfl⟩
  · simp only [createHeadRotationCurve, List.length_map, List.length_range]
    exact periodic_step_count
  · simp only [createHeadRotationCurve, List.getElem?_map,
      List.getElem?_range hk101, Option.map_some']
  · norm_num [headFrequency]
  · norm_num [headFrequency]

/-- Witness for `head_rotation_dense_sampling` at the X axis with range
`[-30, 30]` and grid index `0`. -/
theorem head_rotation_dense_sampling_witness :
    (createHeadRotationCurve Axis.x (-30, 30)).length = 101 ∧
    (createHeadRotationCurve Axis.x (-30, 30))[0]? =
      some ⟨((((0 : ℕ) : ℚ) * 0.1 : ℚ) : ℝ),
        (((-30 + 30) / 2 : ℚ) : ℝ) + (((30 - -30) / 2 : ℚ) : ℝ) *
          Real.sin (2 * Real.pi * ((headFrequency Axis.x : ℚ) : ℝ) *
              ((((0 : ℕ) : ℚ) * 0.1 : ℚ) : ℝ) + ((headPhase Axis.x : ℚ) : ℝ))⟩ ∧
    headFrequency Axis.z < headFrequency Axis.y ∧
    headFrequency Axis.y < headFrequency Axis.x ∧
    headPhase Axis.x = 0 ∧ headPhase Axis.y = 1.57 ∧ headPhase Axis.z = 3.14 :=
  head_rotation_dense_sampling Axis.x (-30) 30 0 (by norm_num)

/-- Midpoint-amplitude bound: a sine wave centred between `mn` and `mx`
with amplitude `(mx - mn) / 2` stays inside `[mn, mx]`. -/
theorem mid_amp_bound {mn mx s : ℝ} (hle : mn ≤ mx) (hs1 : -1 ≤ s)
    (hs2 : s ≤ 1) :
    mn ≤ (mn + mx) / 2 + (mx - mn) / 2 * s ∧
    (mn + mx) / 2 + (mx - mn) / 2 * s ≤ mx := by
  have h1 : 0 ≤ (mx - mn) * (s + 1) := mul_nonneg (by linarith) (by linarith)
  have h2 : 0 ≤ (mx - mn) * (1 - s) := mul_nonneg (by linarith) (by linarith)
  constructor <;> nlinarith

/-- Breathing bound: `0.5 + d * 0.5 * s` stays inside `[0, 1]` for depth
`d` in `[0, 1]` and sine value `s` in `[-1, 1]`. -/
theorem breathing_bound {d s : ℝ} (h0 : 0 ≤ d) (h1 : d ≤ 1) (hs1 : -1 ≤ s)
    (hs2 : s ≤ 1) :
    (0 : ℝ) ≤ 0.5 + d * 0.5 * s ∧ 0.5 + d * 0.5 * s ≤ 1 := by
  have hp1 : 0 ≤ d * (s + 1) := mul_nonneg h0 (by linarith)
  have hp2 : 0 ≤ d * (1 - s) := mul_nonneg h0 (by linarith)
  constructor <;> nlinarith

/-! Claim C5: range invariant of every synthesizer. -/

/-- C5.  Every keyframe emitted by any of the four curve synthesizers has
a value inside the owning parameter's range: blink and lip-sync values lie
in the `[0, 1]` range of the eye/mouth parameters, head-rotation values
lie in the configured `[mn, mx]` axis range, and breathing values with
depth in `[0, 1]` lie in `[0, 1]`.  The values are in range by
construction; no keyframe is ever produced outside the range. -/
theorem curve_values_within_range :
    (∀ (speed : ℚ) (rb : Bool) (u : ℕ → ℚ) (kf : Keyframe ℚ),
       kf ∈ createEyeBlinkCurve speed rb u → 0 ≤ kf.value ∧ kf.value ≤ 1) ∧
    (∀ u : ℕ → ℚ, (∀ i, 0 ≤ u i ∧ u i ≤ 1) →
       ∀ kf ∈ createSampleLipSync u, 0 ≤ kf.value ∧ kf.value ≤ 1) ∧
    (∀ (axis : Axis) (mn mx : ℚ), mn ≤ mx →
       ∀ kf ∈ createHeadRotationCurve axis (mn, mx),
         ((mn : ℚ) : ℝ) ≤ kf.value ∧ kf.value ≤ ((mx : ℚ) : ℝ)) ∧
    (∀ depth speed : ℚ, 0 ≤ depth → depth ≤ 1 →
       ∀ kf ∈ createBreathingCurve depth speed,
         (0 : ℝ) ≤ kf.value ∧ kf.value ≤ 1) := by
  refine ⟨?_, ?_, ?_, ?_⟩
  · intro speed rb u kf hmem
    simp only [createEyeBlinkCurve] at hmem
    obtain ⟨t0, h⟩ := blinkLoop_mem hmem
    exact blinkCycle_value_mem h
  · intro u hu kf hmem
    simp only [createSampleLipSync, List.mem_flatten, List.mem_map] at hmem
    obtain ⟨blk, ⟨i, -, rfl⟩, hkf⟩ := hmem
    have hb := uniform_mem (a := 0.3) (b := 0.7) (by norm_num) (hu i).1 (hu i).2
    simp only [List.mem_cons, List.not_mem_nil, or_false] at hkf
    rcases hkf with h|h|h|h <;> rw [h] <;> dsimp only <;>
      constructor <;> linarith [hb.1, hb.2]
  · intro axis mn mx hle kf hmem
    simp only [createHeadRotationCurve, List.mem_map] at hmem
    obtain ⟨t, -, rfl⟩ := hmem
    have hmnr : ((mn : ℚ) : ℝ) ≤ ((mx : ℚ) : ℝ) := by exact_mod_cast hle
    dsimp only
    push_cast
    exact mid_amp_bound hmnr (Real.neg_one_le_sin _) (Real.sin_le_one _)
  · intro depth speed hd0 hd1 kf hmem
    simp only [createBreathingCurve, List.mem_map] at hmem
    obtain ⟨t, -, rfl⟩ := hmem
    have hd0r : (0 : ℝ) ≤ ((depth : ℚ) : ℝ) := by exact_mod_cast hd0
    have hd1r : ((depth : ℚ) : ℝ) ≤ 1 := by exact_mod_cast hd1
    dsimp only
    push_cast
    exact breathing_bound hd0r hd1r (Real.neg_one_le_sin _) (Real.sin_le_one _)

/-- Witness for `curve_values_within_range` at concrete configurations:
the lip-sync curve at the constant draw `1/2`, the X rotation axis with
range `[-30, 30]`, and breathing with depth `1/2` and speed `1`. -/
theorem curve_values_within_range_witness :
    (∀ kf ∈ createSampleLipSync (fun _ => 1/2), 0 ≤ kf.value ∧ kf.value ≤ 1) ∧
    (∀ kf ∈ createHeadRotationCurve Axis.x (-30, 30),
       (((-30 : ℚ) : ℝ)) ≤ kf.value ∧ kf.value ≤ (((30 : ℚ) : ℝ))) ∧
    (∀ kf ∈ createBreathingCurve (1/2) 1,
       (0 : ℝ) ≤ kf.value ∧ kf.value ≤ 1) := by
  have h := curve_values_within_range
  exact ⟨h.2.1 _ (fun i => by norm_num),
    h.2.2.1 Axis.x (-30) 30 (by norm_num),
    h.2.2.2 (1/2) 1 (by norm_num) (by norm_num)⟩

/-! Layer compositor lemmas. -/

/-- Stability of the insertion sort: the subsequence of elements on which
the order relation is symmetric (here: elements of one fixed key value) is
unchanged by sorting. -/
theorem filter_insertionSort_eq {α : Type} (r : α → α → Prop) [DecidableRel r]
    (l : List α) (p : α → Bool) (hp : ∀ a b, p a → p b → r a b) :
    (l.insertionSort r).filter p = l.filter p := by
  have hpair : (l.filter p).Pairwise r := by
    refine List.pairwise_iff_forall_sublist.mpr ?_
    intro a b hab
    have ha : a ∈ l.filter p := hab.subset (by simp)
    have hb : b ∈ l.filter p := hab.subset (by simp)
    exact hp a b (List.of_mem_filter ha) (List.of_mem_filter hb)
  have h1 : (l.filter p).Sublist (l.insertionSort r) :=
    List.sublist_insertionSort hpair (List.filter_sublist l)
  have h2 : ((l.filter p).filter p).Sublist ((l.insertionSort r).filter p) :=
    h1.filter p
  rw [List.filter_filter] at h2
  simp only [Bool.and_self] at h2
  have h3 : ((l.insertionSort r).filter p).length = (l.filter p).length :=
    ((List.perm_insertionSort r l).filter p).length_eq
  exact (h2.eq_of_length h3.symm).symm

/-- A successful association-list lookup yields a member of the list. -/
theorem lookup_mem {β : Type} :
    ∀ {l : List (String × β)} {k : String} {v : β},
      l.lookup k = some v → (k, v) ∈ l
  | [], k, v, h => by simp [List.lookup] at h
  | (a, b) :: rest, k, v, h => by
    rw [List.lookup] at h
    split at h
    · rename_i hk
      have hka : k = a := by simpa using hk
      have hbv : b = v := by simpa using h
      subst hka
      subst hbv
      exact List.mem_cons_self _ _
    · exact List.mem_cons_of_mem _ (lookup_mem h)

/-- Every rank recorded in the hierarchy table is below the sentinel. -/
theorem lookup_rank_lt {p : String} {r : ℕ}
    (h : part_hierarchy.lookup p = some r) : r < 999 := by
  have hm := lookup_mem h
  simp only [part_hierarchy, List.mem_cons, List.not_mem_nil, or_false,
    Prod.mk.injEq] at hm
  rcases hm with ⟨-, h⟩|⟨-, h⟩|⟨-, h⟩|⟨-, h⟩|⟨-, h⟩|⟨-, h⟩|⟨-, h⟩|⟨-, h⟩|⟨-, h⟩|
    ⟨-, h⟩|⟨-, h⟩|⟨-, h⟩|⟨-, h⟩|⟨-, h⟩|⟨-, h⟩|⟨-, h⟩|⟨-, h⟩|⟨-, h⟩|⟨-, h⟩|
    ⟨-, h⟩|⟨-, h⟩|⟨-, h⟩|⟨-, h⟩ <;> omega

/-- C1.  The composed layer stack is a permutation of the requested parts
in which strictly lower-ranked parts always precede strictly higher-ranked
ones; a part name absent from the hierarchy table receives the sentinel
rank `999`, which exceeds every recorded rank, so unranked parts sort
after all ranked parts; and parts of equal rank keep the input iteration
order of the mask mapping (stable tie-break). -/
theorem ordering_invariant (parts : List String) :
    (orderedParts parts).Perm parts ∧
    (∀ (i j : ℕ) (a b : String), (orderedParts parts)[i]? = some a →
        (orderedParts parts)[j]? = some b → rankOf a < rankOf b → i < j) ∧
    (∀ p, part_hierarchy.lookup p = none → rankOf p = 999) ∧
    (∀ p r, part_hierarchy.lookup p = some r → rankOf p = r ∧ r < 999) ∧
    (∀ (i j : ℕ) (a b : String), (orderedParts parts)[i]? = some a →
        (orderedParts parts)[j]? = some b →
        (part_hierarchy.lookup a).isSome → part_hierarchy.lookup b = none →
        i < j) ∧
    (∀ k : ℕ, (orderedParts parts).filter (fun p => rankOf p == k) =
        parts.filter (fun p => rankOf p == k)) := by
  have hsorted : List.Sorted rankLe (orderedParts parts) :=
    List.sorted_insertionSort rankLe parts
  have hord : ∀ (i j : ℕ) (a b : String), (orderedParts parts)[i]? = some a →
      (orderedParts parts)[j]? = some b → rankOf a < rankOf b → i < j := by
    intro i j a b hia hjb hab
    by_contra hij
    push_neg at hij
    obtain ⟨hi, hgi⟩ := List.getElem?_eq_some_iff.mp hia
    obtain ⟨hj, hgj⟩ := List.getElem?_eq_some_iff.mp hjb
    rcases Nat.eq_or_lt_of_le hij with heq | hlt
    · subst heq
      rw [hgi] at hgj
      rw [hgj] at hab
      exact lt_irrefl _ hab
    · have hrel := hsorted.rel_get_of_lt
        (a := ⟨j, hj⟩) (b := ⟨i, hi⟩) (Fin.mk_lt_mk.mpr hlt)
      simp only [List.get_eq_getElem, hgi, hgj] at hrel
      exact absurd hab (not_lt.2 hrel)
  refine ⟨List.perm_insertionSort rankLe parts, hord, ?_, ?_, ?_, ?_⟩
  · intro p hp
    simp only [rankOf, hp, Option.getD_none]
  · intro p r hp
    refine ⟨?_, lookup_rank_lt hp⟩
    simp only [rankOf, hp, Option.getD_some]
  · intro i j a b hia hjb hsome hnone
    obtain ⟨r, hr⟩ := Option.isSome_iff_exists.mp hsome
    apply hord i j a b hia hjb
    have ha : rankOf a = r := by simp only [rankOf, hr, Option.getD_some]
    have hb : rankOf b = 999 := by simp only [rankOf, hnone, Option.getD_none]
    rw [ha, hb]
    exact lookup_rank_lt hr
  · intro k
    refine filter_insertionSort_eq rankLe parts _ ?_
    intro a b ha hb
    have ha2 : rankOf a = k := by simpa using ha
    have hb2 : rankOf b = k := by simpa using hb
    rw [rankLe, ha2, hb2]

/-- Witness for `ordering_invariant` on the request list
`["face", "hair_back", "custom_part"]` (ranks `4`, `1`, unranked): the
stack order is `hair_back, face, custom_part`. -/
theorem ordering_invariant_witness :
    (orderedParts ["face", "hair_back", "custom_part"]).Perm
      ["face", "hair_back", "custom_part"] ∧
    (0 : ℕ) < 1 ∧
    rankOf "custom_part" = 999 ∧
    (rankOf "face" = 4 ∧ 4 < 999) ∧
    (1 : ℕ) < 2 ∧
    (orderedParts ["face", "hair_back", "custom_part"]).filter
        (fun p => rankOf p == 4) =
      ["face", "hair_back", "custom_part"].filter (fun p => rankOf p == 4) := by
  have h := ordering_invariant ["face", "hair_back", "custom_part"]
  refine ⟨h.1, ?_, ?_, ?_, ?_, h.2.2.2.2.2 4⟩
  · exact h.2.1 0 1 "hair_back" "face" (by decide) (by decide) (by decide)
  · exact h.2.2.1 "custom_part" (by decide)
  · exact h.2.2.2.1 "face" 4 (by decide)
  · exact h.2.2.2.2.1 1 2 "face" "custom_part" (by decide) (by decide)
      (by decide) (by decide)

/-- C10.  When segmentation produced at least one candidate mask, the
selected mask is a candidate of maximal True-pixel area, and among the
candidates of that maximal area it is the first in generation order
(Python's `sorted(..., reverse=True)` is stable), rather than simply the
first candidate generated. -/
theorem largest_mask_selected {h w : ℕ} (masks : List (Mask h w))
    (m : Mask h w) (hsel : selectMask masks = some m) :
    m ∈ masks ∧ (∀ m2 ∈ masks, maskArea m2 ≤ maskArea m) ∧
    (masks.filter (fun m2 => maskArea m2 == maskArea m)).head? = some m := by
  rw [selectMask] at hsel
  rcases hhead : masks.insertionSort areaGe with - | ⟨m0, t⟩
  · rw [hhead] at hsel
    simp at hsel
  · rw [hhead] at hsel
    simp only [List.head?_cons, Option.some.injEq] at hsel
    rw [hsel] at hhead
    have hmem : m ∈ masks := by
      have hm : m ∈ masks.insertionSort areaGe := by
        rw [hhead]; exact List.mem_cons_self _ _
      exact (List.mem_insertionSort areaGe).mp hm
    have hsorted := List.sorted_insertionSort areaGe masks
    rw [hhead] at hsorted
    have hmax : ∀ m2 ∈ masks, maskArea m2 ≤ maskArea m := by
      intro m2 hm2
      have hm2s : m2 ∈ masks.insertionSort areaGe :=
        (List.mem_insertionSort areaGe).mpr hm2
      rw [hhead] at hm2s
      rcases List.mem_cons.mp hm2s with heq | htail
      · rw [heq]
      · exact List.rel_of_sorted_cons hsorted m2 htail
    refine ⟨hmem, hmax, ?_⟩
    have hstable : (masks.insertionSort areaGe).filter
          (fun m2 => maskArea m2 == maskArea m) =
        masks.filter (fun m2 => maskArea m2 == maskArea m) := by
      refine filter_insertionSort_eq areaGe masks _ ?_
      intro a b ha hb
      have ha2 : maskArea a = maskArea m := by simpa using ha
      have hb2 : maskArea b = maskArea m := by simpa using hb
      rw [areaGe, ha2, hb2]
    rw [← hstable, hhead]
    simp [List.filter_cons]

/-- Witness for `largest_mask_selected` on two `2 × 2` masks where the
second candidate has the larger area: the second is selected. -/
theorem largest_mask_selected_witness :
    (fun _ _ => true : Mask 2 2) ∈
      [(fun i j => i == 0 && j == 0 : Mask 2 2), (fun _ _ => true : Mask 2 2)] ∧
    (∀ m2 ∈ [(fun i j => i == 0 && j == 0 : Mask 2 2),
             (fun _ _ => true : Mask 2 2)],
       maskArea m2 ≤ maskArea (fun _ _ => true : Mask 2 2)) ∧
    ([(fun i j => i == 0 && j == 0 : Mask 2 2),
      (fun _ _ => true : Mask 2 2)].filter
        (fun m2 => maskArea m2 == maskArea (fun _ _ => true : Mask 2 2))).head? =
      some (fun _ _ => true : Mask 2 2) :=
  largest_mask_selected
    [(fun i j => i == 0 && j == 0 : Mask 2 2), (fun _ _ => true : Mask 2 2)]
    (fun _ _ => true) (by rfl)

/-- C9.  Every part requested with a non-empty candidate-mask list yields
a layer in the output stack; in particular a part whose only candidate
mask has no True pixels still yields a layer (with every output pixel
fully transparent, i.e. a zero-area layer) instead of being dropped. -/
theorem empty_mask_layer_kept {h w : ℕ} (refine : Bool)
    (blur : ImageA h w → ImageA h w) (img : Image h w)
    (parts : List (String × List (Mask h w))) :
    (∀ name masks, (name, masks) ∈ parts → masks ≠ [] →
       ∃ im, (name, im) ∈ separateLayers refine blur img parts) ∧
    (∀ name (m : Mask h w), (name, [m]) ∈ parts → (∀ i j, m i j = false) →
       ∃ im, (name, im) ∈ separateLayers false blur img parts ∧
         ∀ i j, im i j = (0, 0, 0, 0)) := by
  constructor
  · intro name masks hmem hne
    obtain ⟨m, hm⟩ : ∃ m, selectMask masks = some m := by
      rw [selectMask]
      rcases hh : masks.insertionSort areaGe with - | ⟨m0, t⟩
      · exfalso
        apply hne
        have hlen := congrArg List.length hh
        rw [List.length_insertionSort] at hlen
        exact List.length_eq_zero.mp hlen
      · exact ⟨m0, rfl⟩
    refine ⟨if refine then blur (applyMask img m) else applyMask img m, ?_⟩
    apply List.mem_filterMap.mpr
    refine ⟨(name, masks), hmem, ?_⟩
    simp [segmentPart, hm]
  · intro name m hmem hfalse
    have hm : selectMask [m] = some m := rfl
    refine ⟨applyMask img m, ?_, ?_⟩
    · apply List.mem_filterMap.mpr
      refine ⟨(name, [m]), hmem, ?_⟩
      simp [segmentPart, hm]
    · intro i j
      simp [applyMask, hfalse i j]

/-- Witness for `empty_mask_layer_kept` on a one-part request whose only
candidate mask is all-False over a `2 × 2` image: the part still appears
in the stack with a fully transparent layer. -/
theorem empty_mask_layer_kept_witness :
    ∃ im, ("face", im) ∈
        separateLayers false id (fun _ _ => (5, 5, 5) : Image 2 2)
          [("face", [(fun _ _ => false : Mask 2 2)])] ∧
      ∀ i j, im i j = (0, 0, 0, 0) :=
  (empty_mask_layer_kept false id (fun _ _ => (5, 5, 5))
      [("face", [(fun _ _ => false : Mask 2 2)])]).2
    "face" (fun _ _ => false) (List.mem_cons_self _ _) (fun _ _ => rfl)

end Live2D